import Mathlib

/-!
Verification development for the obsidian-kb-converter plugin.

The definitions below are a shallow embedding of the conversion logic of
the repository: the markdown cleanup pipeline of
src/converters/docx-to-md.ts (blank-line collapse, trailing-whitespace
trim, CLI-command detection and formatting, final trim), the DOCX
generator of src/generators/docx-generator.ts (inline runs, block
processing, lists, image resolution), the callout plugin of
src/parsers/callout-plugin.ts, the wiki-link plugin of
src/utils/wiki-link-remover.ts, and the vault image resolver of
src/utils/image-resolver.ts.

Strings are modelled as Lean String values, manipulated through their
underlying character lists. JavaScript regular expressions are embedded
as equivalent character-level scanners, with greedy-plus-backtracking
behaviour reproduced where it matters (each scanner is documented at its
definition). JavaScript string length coincides with character count on
the ASCII inputs the converter manipulates.
-/

namespace KB

/-- Character class of the JavaScript whitespace escape used by the
converter regexes (space, tab, newline, carriage return, vertical tab,
form feed; the ASCII fragment of JS whitespace). -/
def isJsWs (c : Char) : Bool :=
  c = ' ' || c = '\t' || c = '\n' || c = '\r' || c = '\x0b' || c = '\x0c'

/-- Character class of the JS word escape: ASCII letters, digits, underscore. -/
def isWordChar (c : Char) : Bool :=
  c.isAlpha || c.isDigit || c = '_'

/-- The backtick character, written via its code point. -/
def backQuote : Char := Char.ofNat 96

/-- Model of JavaScript String.prototype.trim on a character list:
drop JS whitespace from both ends. -/
def jsTrim (l : List Char) : List Char :=
  ((l.dropWhile isJsWs).reverse.dropWhile isJsWs).reverse

/-- Emission of one counted newline run under the three-or-more rule: a
run of three or more newlines becomes exactly two, a shorter run is kept
as it is. -/
def emitNL (k : Nat) : List Char :=
  List.replicate (if k ≥ 3 then 2 else k) '\n'

/-- Single pass behind collapseNL: the accumulator counts the newlines
of the current run, which is emitted through emitNL when the run ends. -/
def collapseNLAux : Nat → List Char → List Char
  | k, [] => emitNL k
  | k, c :: rest =>
    if c = '\n' then collapseNLAux (k + 1) rest
    else emitNL k ++ c :: collapseNLAux 0 rest

/-- Model of the first cleanup pass of cleanupMarkdown: the global
replacement of every maximal run of three or more newlines by exactly
two (the JS replace with pattern newline-three-or-more). -/
def collapseNL (l : List Char) : List Char :=
  collapseNLAux 0 l

/-- Decidable absence of three consecutive newlines, the invariant the
blank-line collapse establishes. -/
def noTriple : List Char → Bool
  | a :: b :: c :: rest =>
    !(a = '\n' && b = '\n' && c = '\n') && noTriple (b :: c :: rest)
  | _ => true

/-- Split a character list at a separator character, keeping empty
segments, as the JavaScript split with a one-character separator does. -/
def splitChar (sep : Char) : List Char → List (List Char)
  | [] => [[]]
  | c :: rest =>
    if c = sep then [] :: splitChar sep rest
    else
      match splitChar sep rest with
      | seg :: segs => (c :: seg) :: segs
      | [] => [[c]]

/-- Split at newline characters. -/
def splitNL (l : List Char) : List (List Char) :=
  splitChar '\n' l

/-- Join segments with newline characters (JavaScript join). -/
def joinNL (segs : List (List Char)) : List Char :=
  List.intercalate ['\n'] segs

/-- Model of the second cleanup pass of cleanupMarkdown: per line, remove
trailing spaces and tabs (the multiline JS replace anchored at end of
line over the class space-or-tab). -/
def trimTrailingWsL (l : List Char) : List Char :=
  joinNL ((splitNL l).map
    (fun line => (line.reverse.dropWhile (fun c => c = ' ' || c = '\t')).reverse))

/-- The CLI_COMMANDS dictionary of DocxToMdConverter, transcribed in
source order, duplicates included (the JS Set keeps first insertion
order and drops later duplicates, which leaves membership unchanged). -/
def CLI_COMMANDS : List String := [
  "curl", "wget", "ssh", "scp", "rsync", "tar", "gzip", "gunzip", "zip", "unzip",
  "chmod", "chown", "chgrp", "sudo", "su", "whoami", "id", "uname",
  "ls", "cd", "pwd", "mkdir", "rmdir", "rm", "cp", "mv", "cat", "head", "tail",
  "less", "more", "grep", "egrep", "fgrep", "sed", "awk", "cut", "sort", "uniq",
  "wc", "find", "locate", "which", "whereis", "file", "stat", "du", "df",
  "touch", "ln", "readlink", "basename", "dirname", "realpath",
  "echo", "printf", "read", "export", "env", "set", "unset", "source",
  "alias", "type", "command", "hash", "history", "fc",
  "ps", "top", "htop", "kill", "killall", "pkill", "pgrep", "jobs", "bg", "fg", "nohup",
  "systemctl", "service", "journalctl", "dmesg", "crontab", "at",
  "mount", "umount", "fdisk", "lsblk", "blkid", "mkfs", "fsck",
  "ip", "ifconfig", "netstat", "ss", "ping", "traceroute", "dig", "nslookup", "host",
  "nc", "netcat", "telnet", "ftp", "sftp",
  "iptables", "firewall-cmd", "ufw",
  "apt", "apt-get", "apt-cache", "dpkg", "yum", "dnf", "rpm", "zypper",
  "pacman", "brew", "port", "snap", "flatpak",
  "pip", "pip3", "pipx", "conda", "virtualenv", "venv",
  "gem", "bundle", "bundler",
  "cargo", "rustup", "rustc",
  "go", "gofmt",
  "composer", "php", "artisan",
  "nuget", "dotnet",
  "npm", "npx", "yarn", "pnpm", "node", "nodejs", "nvm", "fnm",
  "tsc", "tsx", "esbuild", "vite", "webpack", "rollup", "parcel",
  "eslint", "prettier", "jest", "vitest", "mocha",
  "python", "python3", "py", "pytest", "poetry", "pdm", "uv",
  "django-admin", "flask", "uvicorn", "gunicorn",
  "java", "javac", "jar", "mvn", "maven", "gradle", "gradlew", "ant",
  "scala", "sbt", "kotlin", "kotlinc", "clojure", "lein",
  "docker", "docker-compose", "podman", "buildah", "skopeo",
  "kubectl", "k9s", "helm", "minikube", "kind", "k3s", "k3d",
  "terraform", "terragrunt", "pulumi", "ansible", "ansible-playbook",
  "aws", "az", "gcloud", "gsutil", "bq", "oc", "eksctl",
  "vagrant", "packer",
  "git", "gh", "hub", "svn", "hg", "mercurial",
  "vim", "nvim", "vi", "nano", "emacs", "code", "subl",
  "make", "cmake", "ninja", "meson", "autoconf", "automake",
  "gcc", "g++", "clang", "clang++", "ld", "ar", "nm", "objdump",
  "gdb", "lldb", "valgrind", "strace", "ltrace",
  "mysql", "mysqldump", "psql", "pg_dump", "pg_restore",
  "mongosh", "mongo", "mongodump", "mongorestore",
  "redis-cli", "sqlite3",
  "jq", "yq", "xargs", "parallel", "watch", "timeout", "date", "cal",
  "base64", "md5sum", "sha256sum", "openssl", "gpg",
  "ffmpeg", "convert", "identify", "pdftk", "gs",
  "ansible", "salt", "puppet", "chef"]

/-- Shell prompt characters stripped by looksLikeCliCommand. -/
def isPromptChar (c : Char) : Bool :=
  c = '#' || c = '$' || c = '>' || c = '%'

/-- Characters the JS dot matches everything except: line terminators. -/
def isLineTerm (c : Char) : Bool :=
  c = '\n' || c = '\r'

/-- Prefix test on character lists. -/
def startsWithS (l : List Char) (p : String) : Bool :=
  p.data.isPrefixOf l

/-- Embedding of the first prompt-stripping regex of looksLikeCliCommand
(anchored: one or more prompt characters, then optional whitespace, then
a non-space character followed by the rest of the line). Greedy matching
with backtracking: the prompt run is maximal; when everything after it is
whitespace the engine gives back the last prompt character (non-space) to
satisfy the mandatory non-space position, which only succeeds when the
run has length at least two. Returns the second capture group. -/
def promptMatch (s : List Char) : Option (List Char) :=
  let k := (s.takeWhile isPromptChar).length
  if k = 0 then none
  else
    let tail := s.drop k
    let rest := tail.drop ((tail.takeWhile isJsWs).length)
    match rest with
    | _ :: _ => some (rest.takeWhile (fun c => !isLineTerm c))
    | [] =>
      if k ≥ 2 then some ((s.drop (k - 1)).takeWhile (fun c => !isLineTerm c))
      else none

/-- Embedding of the second prompt-stripping regex (anchored: one prompt
character, then a letter, then word characters and the rest of the
line). Returns the capture group, which extends to the end of line. -/
def noSpacePromptMatch (s : List Char) : Option (List Char) :=
  match s with
  | c :: d :: _ =>
    if isPromptChar c && d.isAlpha then
      some ((s.drop 1).takeWhile (fun e => !isLineTerm e))
    else none
  | _ => none

/-- Embedding of the replace of the optional anchored group quote sudo
followed by whitespace unquote applied to the first word: since the
first word never contains whitespace the group never matches, but the
general behaviour is kept. -/
def stripSudo (w : List Char) : List Char :=
  if startsWithS w "sudo" then
    let rest := w.drop 4
    if (rest.takeWhile isJsWs).length ≥ 1 then rest.dropWhile isJsWs else w
  else w

/-- Pattern: whitespace, one or two dashes, a letter (the flag-token
pattern of cliPatterns). With two dashes available the greedy quantifier
takes both and then requires a letter; backtracking to one dash exposes
the second dash, which is not a letter, so the two-dash shape decides. -/
def hasFlagTok (l : List Char) : Bool :=
  match l with
  | [] => false
  | c :: rest =>
    (isJsWs c &&
      (match rest with
       | '-' :: '-' :: d :: _ => d.isAlpha
       | '-' :: d :: _ => d.isAlpha
       | _ => false)) || hasFlagTok rest

/-- Pattern: whitespace, pipe, whitespace. -/
def hasPipeOp (l : List Char) : Bool :=
  match l with
  | [] => false
  | c :: rest =>
    (isJsWs c &&
      (match rest with
       | '|' :: d :: _ => isJsWs d
       | _ => false)) || hasPipeOp rest

/-- Pattern: whitespace, one or two angle brackets, whitespace. Greedy on
the bracket run with backtracking to a single bracket. -/
def hasRedirect (l : List Char) : Bool :=
  match l with
  | [] => false
  | c :: rest =>
    (isJsWs c &&
      (match rest with
       | a :: b :: d :: _ =>
         (a = '<' || a = '>') &&
           ((b = '<' || b = '>') && isJsWs d || isJsWs b)
       | [a, b] => (a = '<' || a = '>') && isJsWs b
       | _ => false)) || hasRedirect rest

/-- Anchored pattern: a letter or underscore, a run of letters, digits
and underscores, then an equals sign (case-insensitive environment-style
assignment). The run is maximal; the equals sign is outside the class so
backtracking cannot help. -/
def envAssignTest (l : List Char) : Bool :=
  match l with
  | c :: rest =>
    (c.isAlpha || c = '_') &&
      ((rest.dropWhile (fun d => d.isAlpha || d.isDigit || d = '_')).head? = some '=')
  | [] => false

/-- Anchored pattern: dot or tilde, slash, then at least one non-space. -/
def dotSlashTest (l : List Char) : Bool :=
  match l with
  | c :: '/' :: d :: _ => (c = '.' || c = '~') && !isJsWs d
  | _ => false

/-- Pattern: dollar, open parenthesis, at least one character other than
a closing parenthesis, then a closing parenthesis (command substitution). -/
def hasCmdSubst (l : List Char) : Bool :=
  match l with
  | [] => false
  | c :: rest =>
    (c = '$' &&
      (match rest with
       | '(' :: inner =>
         let body := inner.takeWhile (fun d => d ≠ ')')
         !body.isEmpty && (inner.drop body.length).head? = some ')'
       | _ => false)) || hasCmdSubst rest

/-- Pattern: backtick, at least one non-backtick, backtick. -/
def hasBacktickSpan (l : List Char) : Bool :=
  match l with
  | [] => false
  | c :: rest =>
    (c = backQuote &&
      (let body := rest.takeWhile (fun d => d ≠ backQuote)
       !body.isEmpty && (rest.drop body.length).head? = some backQuote))
      || hasBacktickSpan rest

/-- Pattern: dollar followed by a letter or underscore (environment
variable reference, case-insensitive). -/
def hasDollarVar (l : List Char) : Bool :=
  match l with
  | [] => false
  | c :: rest =>
    (c = '$' &&
      (match rest with
       | d :: _ => d.isAlpha || d = '_'
       | [] => false)) || hasDollarVar rest

/-- Anchored pattern: hash, bang, slash, then at least one non-space
(shebang reference). -/
def shebangTest (l : List Char) : Bool :=
  match l with
  | '#' :: '!' :: '/' :: d :: _ => !isJsWs d
  | _ => false

/-- The cliPatterns disjunction of looksLikeCliCommand, in source order. -/
def cliPatternsTest (l : List Char) : Bool :=
  hasFlagTok l || hasPipeOp l || hasRedirect l || envAssignTest l ||
    dotSlashTest l || hasCmdSubst l || hasBacktickSpan l || hasDollarVar l ||
    shebangTest l

/-- The early code-formatting guard of looksLikeCliCommand: the trimmed
line starts with a backtick (single or triple). -/
def codeTickGuard (t : List Char) : Bool :=
  startsWithS t "`" || startsWithS t "```"

/-- The early URL guard of looksLikeCliCommand: an http or https prefix
on a line without spaces. -/
def urlGuard (t : List Char) : Bool :=
  (startsWithS t "http://" || startsWithS t "https://") && !t.contains ' '

/-- The early bare-path guard of looksLikeCliCommand: a whole line over
slash or tilde then word characters, slashes, dots and dashes, without
spaces. -/
def barePathGuard (t : List Char) : Bool :=
  (match t with
   | c :: rest =>
     (c = '/' || c = '~') && !rest.isEmpty &&
       rest.all (fun d => isWordChar d || d = '/' || d = '.' || d = '-')
   | [] => false) && !t.contains ' '

/-- The prompt stripping steps of looksLikeCliCommand, applied in
sequence to the trimmed line. -/
def promptStripped (trimmed : List Char) : List Char :=
  let t1 := match promptMatch trimmed with
    | some m => m
    | none => trimmed
  match noSpacePromptMatch t1 with
  | some m => m
  | none => t1

/-- The first-word extraction of looksLikeCliCommand: split at
whitespace, pipe, semicolon or ampersand, strip a leading sudo group,
lower-case. -/
def classifierFirstWord (t2 : List Char) : List Char :=
  (stripSudo (t2.takeWhile
    (fun c => !(isJsWs c || c = '|' || c = ';' || c = '&')))).map Char.toLower

/-- Embedding of DocxToMdConverter.looksLikeCliCommand. -/
def looksLikeCliCommandL (text : List Char) : Bool :=
  let trimmed := jsTrim text
  if trimmed.length < 2 then false
  else if codeTickGuard trimmed then false
  else if urlGuard trimmed then false
  else if barePathGuard trimmed then false
  else
    let t2 := promptStripped trimmed
    if CLI_COMMANDS.contains (String.mk (classifierFirstWord t2)) then true
    else cliPatternsTest t2

/-- String wrapper for looksLikeCliCommand. -/
def looksLikeCliCommand (s : String) : Bool :=
  looksLikeCliCommandL s.data

/-- Substring membership (JavaScript String.prototype.includes). -/
def hasSubSeq (pat : List Char) : List Char → Bool
  | [] => pat.isEmpty
  | c :: rest => pat.isPrefixOf (c :: rest) || hasSubSeq pat rest

/-- Embedding of DocxToMdConverter.shouldBeCodeBlock: multi-line, longer
than 80 characters, a line continuation, or at least two pipes. -/
def shouldBeCodeBlockL (t : List Char) : Bool :=
  t.contains '\n' || t.length > 80 || hasSubSeq (" \\".data) t ||
    t.countP (fun c => c = '|') ≥ 2

/-- Single pass behind quotedReplace: outside a quoted span the state is
none; inside, the accumulator holds the reversed content so far. A
closing quote over non-empty content completes a match; a closing quote
over empty content emits the opener verbatim and re-opens at the current
quote, exactly as the regex engine advances past a failed empty match;
an unclosed opener at the end is emitted verbatim together with the
content (which by construction holds no quote). -/
def quotedReplaceAux : Option (List Char) → List Char → List Char
  | none, [] => []
  | some acc, [] => '"' :: acc.reverse
  | none, c :: rest =>
    if c = '"' then quotedReplaceAux (some []) rest
    else c :: quotedReplaceAux none rest
  | some acc, c :: rest =>
    if c = '"' then
      if acc.isEmpty then '"' :: quotedReplaceAux (some []) rest
      else
        (if looksLikeCliCommandL acc.reverse && acc.reverse.length < 60 then
          backQuote :: (acc.reverse ++ [backQuote])
        else
          '"' :: (acc.reverse ++ ['"'])) ++ quotedReplaceAux none rest
    else quotedReplaceAux (some (c :: acc)) rest

/-- Embedding of the first replace of formatInlineCliCommands: every
non-empty double-quoted span whose content looks like a CLI command and
is shorter than 60 characters is rewritten to a backtick span; other
quoted spans are kept. -/
def quotedReplace (l : List Char) : List Char :=
  quotedReplaceAux none l

/-- Argument characters of the tool-mention pattern: word characters,
dot, dash. -/
def isArgChar (c : Char) : Bool :=
  isWordChar c || c = '.' || c = '-'

/-- Flag-body characters of the tool-mention pattern: word characters
and dash. -/
def isFlagBodyChar (c : Char) : Bool :=
  isWordChar c || c = '-'

/-- Length consumed by the optional equals-value group of the
tool-mention pattern: an equals sign followed by at least one non-space
character, or nothing. -/
def tmEq (s : List Char) : Nat :=
  match s with
  | '=' :: rest =>
    let v := (rest.takeWhile (fun c => !isJsWs c)).length
    if v = 0 then 0 else 1 + v
  | _ => 0

/-- Single-dash alternative of the flag-group pattern: the dash itself
is followed by a non-empty flag body (in which further dashes are body
material) and the optional equals-value part. The argument starts right
after the mandatory first dash position has been entered, so the dash is
part of the body class here. -/
def tmOneDash (rest1 : List Char) : Option Nat :=
  let body1 := (rest1.takeWhile isFlagBodyChar).length
  if body1 = 0 then none
  else some (1 + body1 + tmEq (rest1.drop body1))

/-- Dash-and-body part of a flag group: the greedy dash quantifier
prefers two dashes; when the body after two dashes is empty the engine
backtracks to one dash, at which point the second dash itself becomes
body material (tmOneDash). Returns the consumed length from the first
dash on. -/
def tmDashBody (rest0 : List Char) : Option Nat :=
  match rest0 with
  | '-' :: rest1 =>
    (match rest1 with
     | '-' :: rest2 =>
       let body := (rest2.takeWhile isFlagBodyChar).length
       if body = 0 then tmOneDash rest1
       else some (1 + (1 + body + tmEq (rest2.drop body)))
     | _ => tmOneDash rest1)
  | _ => none

/-- One flag group of the tool-mention pattern: whitespace, one or two
dashes, a non-empty flag body, an optional equals-value part. Returns
the consumed length. -/
def tmGroup (s : List Char) : Option Nat :=
  let ws := (s.takeWhile isJsWs).length
  if ws = 0 then none
  else
    match tmDashBody (s.drop ws) with
    | some k => some (ws + k)
    | none => none

/-- One-or-more flag groups (the plus quantifier of the tool-mention
pattern), greedy, iterated on explicit fuel: every group consumes at
least three characters, so fuel one past the input length is never
exhausted and the fuel parameter is only a termination device. Returns
the consumed length. -/
def tmGroupsF : Nat → List Char → Option Nat
  | 0, _ => none
  | fuel + 1, s =>
    match tmGroup s with
    | none => none
    | some n =>
      match tmGroupsF fuel (s.drop n) with
      | some m => some (n + m)
      | none => some n

/-- One-or-more flag groups at adequate fuel. -/
def tmGroups (s : List Char) : Option Nat :=
  tmGroupsF (s.length + 1) s

/-- Tail of the tool-mention pattern after a command alternative:
mandatory whitespace, a non-empty argument word over word characters,
dot and dash, then one or more flag groups. Returns the whitespace
length and the length of the argument capture (argument word plus flag
groups, inter-group whitespace included, exactly as the capture group
spans it). -/
def tmAfterCmd (s : List Char) : Option (Nat × Nat) :=
  let ws := (s.takeWhile isJsWs).length
  if ws = 0 then none
  else
    let s1 := s.drop ws
    let arg1 := (s1.takeWhile isArgChar).length
    if arg1 = 0 then none
    else
      match tmGroups (s1.drop arg1) with
      | some g => some (ws, arg1 + g)
      | none => none

/-- Alternation over the first fifty dictionary commands, in insertion
order: the first alternative that is a literal prefix at the current
position and whose continuation matches wins; on continuation failure
the engine falls through to the next alternative. Returns the matched
command with the whitespace and argument-capture lengths. -/
def tmTryCmds : List String → List Char → Option (String × Nat × Nat)
  | [], _ => none
  | cmd :: more, s =>
    if startsWithS s cmd then
      match tmAfterCmd (s.drop cmd.length) with
      | some (ws, n) => some (cmd, ws, n)
      | none => tmTryCmds more s
    else tmTryCmds more s

/-- Fuel-driven scan behind the toolMentionPattern replace: a word
boundary, one of the first fifty dictionary commands, whitespace, and a
flags-bearing argument span; a match shorter than 60 characters when
normalised to a single separating space is wrapped in backticks, a
longer one is kept verbatim. The boundary state prevW records whether
the previous character is a word character. Every step consumes at
least one character, so fuel equal to the input length is never
exhausted and is only a termination device. -/
def toolMentionScanF : Nat → Bool → List Char → List Char
  | 0, _, s => s
  | _ + 1, _, [] => []
  | fuel + 1, prevW, c :: rest =>
    if !prevW then
      match tmTryCmds (CLI_COMMANDS.take 50) (c :: rest) with
      | some (cmd, ws, arglen) =>
        let len := cmd.length + ws + arglen
        let args := ((c :: rest).drop (cmd.length + ws)).take arglen
        let fullCmd := cmd.data ++ ' ' :: args
        let repl :=
          if fullCmd.length < 60 then backQuote :: (fullCmd ++ [backQuote])
          else (c :: rest).take len
        let lastW :=
          match ((c :: rest).take len).getLast? with
          | some d => isWordChar d
          | none => prevW
        repl ++ toolMentionScanF fuel lastW ((c :: rest).drop len)
      | none => c :: toolMentionScanF fuel (isWordChar c) rest
    else c :: toolMentionScanF fuel (isWordChar c) rest

/-- Embedding of the toolMentionPattern replace at adequate fuel. -/
def toolMentionScan (prevW : Bool) (s : List Char) : List Char :=
  toolMentionScanF s.length prevW s

/-- Embedding of DocxToMdConverter.formatInlineCliCommands: skip lines
already holding two or more backticks, then apply the quoted-span
replace followed by the tool-mention replace. -/
def formatInlineCliCommandsL (line : List Char) : List Char :=
  if line.countP (fun c => c = backQuote) ≥ 2 then line
  else toolMentionScan false (quotedReplace line)

/-- Anchored test for an ordered-list marker: one or more digits then a
dot. The digit run is maximal; backtracking cannot produce a dot. -/
def matchesOrderedList (t : List Char) : Bool :=
  let ds := t.takeWhile Char.isDigit
  !ds.isEmpty && (t.drop ds.length).head? = some '.'

/-- Anchored test for a markdown header: one to six hashes, mandatory
whitespace, then a letter (case-insensitive class). A hash run longer
than six cannot match, since backtracking only exposes further hashes. -/
def headerTest (t : List Char) : Bool :=
  let hs := (t.takeWhile (fun c => c = '#')).length
  if hs = 0 || hs > 6 then false
  else
    let rest := t.drop hs
    let ws := (rest.takeWhile isJsWs).length
    if ws = 0 then false
    else
      match rest.drop ws with
      | c :: _ => c.isAlpha
      | [] => false

/-- The replace stripping leading hashes and whitespace from a header
line (unbounded hash run, then optional whitespace). -/
def afterHash (t : List Char) : List Char :=
  (t.dropWhile (fun c => c = '#')).dropWhile isJsWs

/-- Embedding of the per-line body of DocxToMdConverter.formatCliCommands:
already formatted lines pass through, true headers pass through,
blank lines pass through, classified command lines are fenced or
inlined, and all other lines go through the inline scan. -/
def processLine (line : List Char) : List (List Char) :=
  let trimmedLine := jsTrim line
  if startsWithS trimmedLine "```" || startsWithS trimmedLine "`" ||
      startsWithS trimmedLine ">" || startsWithS trimmedLine "-" ||
      startsWithS trimmedLine "*" || matchesOrderedList trimmedLine then
    [line]
  else if headerTest trimmedLine &&
      !looksLikeCliCommandL (afterHash trimmedLine) then
    [line]
  else if (jsTrim line).isEmpty then
    [line]
  else if looksLikeCliCommandL line then
    let trimmed := jsTrim line
    if shouldBeCodeBlockL trimmed then ["```bash".data, trimmed, "```".data]
    else [backQuote :: (trimmed ++ [backQuote])]
  else
    [formatInlineCliCommandsL line]

/-- Embedding of DocxToMdConverter.formatCliCommands: process every line
and join the results with newlines. -/
def formatCliCommandsL (md : List Char) : List Char :=
  joinNL (((splitNL md).map processLine).flatten)

/-- Embedding of DocxToMdConverter.cleanupMarkdown: collapse blank-line
runs, trim trailing whitespace per line, format CLI commands, then trim
the whole text and append a single newline. -/
def cleanupMarkdownL (md : List Char) : List Char :=
  let md1 := collapseNL md
  let md2 := trimTrailingWsL md1
  let md3 := formatCliCommandsL md2
  jsTrim md3 ++ ['\n']

/-- String wrapper for cleanupMarkdown. -/
def cleanupMarkdown (s : String) : String :=
  String.mk (cleanupMarkdownL s.data)

/-! ### mdast node model (the AST produced by remark and consumed by the
generator and the plugins) -/

/-- Inline (phrasing) mdast content, as used by docx-generator. The
other constructor stands for any node kind outside the switch, with its
optional string value field read by the default case. -/
inductive MdInline where
  | text (value : String)
  | strong (children : List MdInline)
  | emphasis (children : List MdInline)
  | inlineCode (value : String)
  | link (url : String) (children : List MdInline)
  | brk
  | image (url : String)
  | other (value : Option String)
deriving Repr

/-- Block-level mdast content, including the custom callout node the
callout plugin introduces. List items hold their child blocks; a list
node holds its items. -/
inductive MdBlock where
  | heading (depth : Nat) (children : List MdInline)
  | paragraph (children : List MdInline)
  | code (lang : Option String) (value : String)
  | blockquote (children : List MdBlock)
  | list (ordered : Bool) (items : List (List MdBlock))
  | table (rows : List (List (List MdInline)))
  | thematicBreak
  | callout (calloutType : String) (title : Option String)
      (children : List MdBlock)
  | unknown
deriving Repr

/-! ### Styled output model (the docx Paragraph and Run values the
generator produces). A TextRun option object is modelled as a record of
the fields the generator passes: text, bold, italics, font, size (in
half-points), shading colour, and break count; absent fields carry the
constructor defaults (empty text, no formatting, break zero). Reading
the text property of a run is modelled as reading the text field. -/

/-- A run inside a docx paragraph. -/
inductive DocxRun where
  | textRun (text : String) (bold : Bool) (italics : Bool)
      (font : Option String) (size : Option Nat)
      (shadingColor : Option String) (brk : Nat)
  | imageRun (data : List Nat) (width : Nat) (height : Nat)
deriving Repr, DecidableEq

/-- The codeBlockStyle record of the plugin settings. -/
structure CodeBlockStyle where
  background : String
  borderColor : String
  fontName : String
  fontSize : Nat
deriving Repr, DecidableEq

/-- The tableStyle record of the plugin settings. -/
structure TableStyleS where
  headerBackground : String
  headerTextColor : String
  borderColor : String
deriving Repr, DecidableEq

/-- One callout style triple of the plugin settings. -/
structure CalloutStyleS where
  background : String
  border : String
  leftBorderWidth : Nat
deriving Repr, DecidableEq

/-- The settings fields the generator reads. -/
structure SettingsS where
  codeBlockStyle : CodeBlockStyle
  tableStyle : TableStyleS
  calloutStyles : List (String × CalloutStyleS)
deriving Repr

/-- The DEFAULT_SETTINGS values of settings.ts restricted to the fields
the generator reads. -/
def DEFAULT_SETTINGS : SettingsS :=
  { codeBlockStyle :=
      { background := "F5F5F5", borderColor := "CCCCCC",
        fontName := "Consolas", fontSize := 9 }
    tableStyle :=
      { headerBackground := "404040", headerTextColor := "FFFFFF",
        borderColor := "000000" }
    calloutStyles := [
      ("note", ⟨"E8F4FD", "4A90E2", 12⟩),
      ("tip", ⟨"E8F5E9", "4CAF50", 12⟩),
      ("warning", ⟨"FFF3E0", "FF9800", 12⟩),
      ("danger", ⟨"FFEBEE", "F44336", 12⟩),
      ("info", ⟨"E1F5FE", "00BCD4", 12⟩),
      ("question", ⟨"F3E5F5", "9C27B0", 12⟩)] }

/-- The block elements DocxGenerator appends to its children sequence.
Regular paragraphs carry no spacing, list lines carry the 120-twip
spacing the source sets; code blocks carry their style fields; callout
paragraphs carry their style triple and position flags. -/
inductive DocxBlock where
  | headingPara (level : Nat) (children : List DocxRun)
  | para (children : List DocxRun) (spacingAfter : Option Nat)
  | codeBlock (children : List DocxRun) (background : String)
      (borderColor : String)
  | tableBlock (rows : List (List String)) (style : TableStyleS)
  | separator
  | calloutPara (children : List DocxRun) (style : CalloutStyleS)
      (isFirst : Bool) (isLast : Bool)
deriving Repr, DecidableEq

mutual

/-- One switch arm of DocxGenerator.processInlineContent: the runs one
inline node contributes. A strong or emphasis wrapper renders its
children and then rebuilds every text run from its text property alone,
setting only bold (respectively only italics) and the constructor
defaults for every other field; image runs pass through unchanged. -/
def processInlineNode (cbs : CodeBlockStyle) : MdInline → List DocxRun
  | .text v => [.textRun v false false none none none 0]
  | .strong cs =>
    (processInlineContent cbs cs).map (fun run =>
      match run with
      | .textRun t _ _ _ _ _ _ => .textRun t true false none none none 0
      | r => r)
  | .emphasis cs =>
    (processInlineContent cbs cs).map (fun run =>
      match run with
      | .textRun t _ _ _ _ _ _ => .textRun t false true none none none 0
      | r => r)
  | .inlineCode v =>
    [.textRun v false false (some cbs.fontName) (some (cbs.fontSize * 2))
      (some cbs.background) 0]
  | .link _ cs => processInlineContent cbs cs
  | .brk => [.textRun "" false false none none none 1]
  | .image _ => []
  | .other v =>
    match v with
    | some s => [.textRun s false false none none none 0]
    | none => []

/-- Embedding of DocxGenerator.processInlineContent: the synchronous
inline renderer, concatenating the runs of every node. -/
def processInlineContent (cbs : CodeBlockStyle) : List MdInline → List DocxRun
  | [] => []
  | node :: rest => processInlineNode cbs node ++ processInlineContent cbs rest

end

/-- The data an image resolver returns on a hit. -/
structure ImgData where
  buffer : List Nat
  width : Option Nat
  height : Option Nat
deriving Repr, DecidableEq

/-- An image resolver: from a logical filename to image data or a miss. -/
def ImgResolver : Type := String → Option ImgData

/-- The JS disjunction value-or-default on an optional number: zero and
absence both fall back to the default. -/
def jsOrNat (o : Option Nat) (d : Nat) : Nat :=
  match o with
  | some w => if w = 0 then d else w
  | none => d

/-- Embedding of DocxGenerator.processInlineContentAsync: image nodes
are resolved when a resolver is present; a hit emits an image run with
the resolved or default 400 by 300 dimensions, a miss emits nothing;
every other node goes through the synchronous renderer. -/
def processInlineContentAsync (cbs : CodeBlockStyle)
    (resolver : Option ImgResolver) : List MdInline → List DocxRun
  | [] => []
  | node :: rest =>
    (match node, resolver with
     | .image url, some f =>
       (match f url with
        | some d => [.imageRun d.buffer (jsOrNat d.width 400) (jsOrNat d.height 300)]
        | none => [])
     | _, _ => processInlineContent cbs [node])
      ++ processInlineContentAsync cbs resolver rest

/-- Embedding of code-styles createCodeBlock run construction: one text
run per source line in the code font and doubled size, with an explicit
break run between consecutive lines. -/
def codeRuns (cbs : CodeBlockStyle) : List String → List DocxRun
  | [] => []
  | l0 :: ls =>
    .textRun l0 false false (some cbs.fontName) (some (cbs.fontSize * 2)) none 0
      :: ls.flatMap (fun l =>
        [.textRun "" false false none none none 1,
         .textRun l false false (some cbs.fontName) (some (cbs.fontSize * 2)) none 0])

/-- Embedding of createCodeBlock: the runs inside one bordered, shaded
paragraph carrying the code-block style; the value is split at newline
characters. -/
def createCodeBlock (cbs : CodeBlockStyle) (value : String) : DocxBlock :=
  .codeBlock (codeRuns cbs ((splitNL value.data).map String.mk))
    cbs.background cbs.borderColor

/-- Embedding of table-styles extractCellText on inline content: flatten
descendant text values in order; nodes without children or text value
contribute nothing. -/
def extractCellText : List MdInline → String
  | [] => ""
  | node :: rest =>
    (match node with
     | .text v => v
     | .strong cs => extractCellText cs
     | .emphasis cs => extractCellText cs
     | .link _ cs => extractCellText cs
     | _ => "") ++ extractCellText rest

/-- Embedding of createStyledTable: every row becomes a row of flattened
cell texts carrying the configured table style (row zero is styled as
the header by the packaging fields, which the model keeps in the style
record). -/
def createStyledTable (style : TableStyleS)
    (rows : List (List (List MdInline))) : DocxBlock :=
  .tableBlock (rows.map (fun row => row.map extractCellText)) style

/-- The hardcoded default callout style triple of callout-styles. -/
def DEFAULT_CALLOUT_STYLE : CalloutStyleS :=
  ⟨"E8F4FD", "4A90E2", 12⟩

/-- Style lookup with fallback to the default triple. -/
def lookupCalloutStyle (styles : List (String × CalloutStyleS))
    (ty : String) : CalloutStyleS :=
  match styles.lookup ty with
  | some s => s
  | none => DEFAULT_CALLOUT_STYLE

/-- JS capitalize helper of callout-styles. -/
def capitalize (s : String) : String :=
  match s.data with
  | [] => ""
  | c :: rest => String.mk (c.toUpper :: rest)

/-- Embedding of callout-styles extractText: flatten text values. -/
def extractTextInline : List MdInline → String
  | [] => ""
  | node :: rest =>
    (match node with
     | .text v => v
     | .strong cs => extractTextInline cs
     | .emphasis cs => extractTextInline cs
     | .link _ cs => extractTextInline cs
     | _ => "") ++ extractTextInline rest

/-- The run list of one callout content paragraph: the restricted inline
mapping of callout-styles (text, strong, emphasis, inline code; anything
else becomes an empty run). -/
def calloutContentRuns : List MdInline → List DocxRun
  | [] => []
  | node :: rest =>
    (match node with
     | .text v => .textRun v false false none none none 0
     | .strong cs => .textRun (extractTextInline cs) true false none none none 0
     | .emphasis cs => .textRun (extractTextInline cs) false true none none none 0
     | .inlineCode v =>
       .textRun v false false (some "Courier New") (some 18) none 0
     | _ => .textRun "" false false none none none 0)
      :: calloutContentRuns rest

/-- Content paragraphs of a callout, with their position flags: child i
carries isLast when it is the final child, and non-paragraph children
are skipped. -/
def calloutBodyParas (style : CalloutStyleS) (total : Nat) :
    Nat → List MdBlock → List DocxBlock
  | _, [] => []
  | i, child :: rest =>
    (match child with
     | .paragraph cs =>
       [.calloutPara (calloutContentRuns cs) style false (i + 1 = total)]
     | _ => []) ++ calloutBodyParas style total (i + 1) rest

/-- Embedding of callout-styles createCalloutParagraphs: a bold header
line from the capitalized type and optional title, then one styled line
per paragraph child. -/
def createCalloutParagraphs (styles : List (String × CalloutStyleS))
    (ty : String) (title : Option String) (children : List MdBlock) :
    List DocxBlock :=
  let style := lookupCalloutStyle styles ty
  let headerText :=
    match title with
    | some t => capitalize ty ++ ": " ++ t
    | none => capitalize ty ++ ":"
  .calloutPara [.textRun headerText true false none none none 0] style true false
    :: calloutBodyParas style children.length 0 children

/-- The list-line marker of processListItem. -/
def listMarker (ordered : Bool) (index : Nat) : String :=
  if ordered then toString (index + 1) ++ ". " else "• "

mutual

/-- Embedding of DocxGenerator.processNode: one block node maps to the
sequence of block elements it appends. Heading levels outside one to six
fall back to one; blockquote children are flattened into the flow;
unknown nodes are skipped. -/
def processNode (st : SettingsS) (resolver : Option ImgResolver) :
    MdBlock → List DocxBlock
  | .heading d cs =>
    [.headingPara (if 1 ≤ d && d ≤ 6 then d else 1)
      (processInlineContent st.codeBlockStyle cs)]
  | .paragraph cs =>
    [.para (processInlineContentAsync st.codeBlockStyle resolver cs) none]
  | .code _ v => [createCodeBlock st.codeBlockStyle v]
  | .blockquote cs => processNodes st resolver cs
  | .list ordered items => processListItems st resolver ordered 0 items
  | .table rows => [createStyledTable st.tableStyle rows]
  | .thematicBreak => [.separator]
  | .callout ty title cs => createCalloutParagraphs st.calloutStyles ty title cs
  | .unknown => []

/-- Sequential processing of a block list (the generate loop and the
blockquote flattening loop). -/
def processNodes (st : SettingsS) (resolver : Option ImgResolver) :
    List MdBlock → List DocxBlock
  | [] => []
  | b :: rest => processNode st resolver b ++ processNodes st resolver rest

/-- Embedding of DocxGenerator.processList: items are processed with
their zero-based index within this list only. -/
def processListItems (st : SettingsS) (resolver : Option ImgResolver)
    (ordered : Bool) : Nat → List (List MdBlock) → List DocxBlock
  | _, [] => []
  | i, item :: rest =>
    processListItem st resolver ordered i item
      ++ processListItems st resolver ordered (i + 1) rest

/-- Embedding of DocxGenerator.processListItem: paragraph children
become marker-prefixed lines with the 120-twip spacing; nested lists
recurse with a fresh index starting at zero; other children are
skipped. -/
def processListItem (st : SettingsS) (resolver : Option ImgResolver)
    (ordered : Bool) (index : Nat) : List MdBlock → List DocxBlock
  | [] => []
  | child :: rest =>
    (match child with
     | .paragraph cs =>
       [.para (.textRun (listMarker ordered index) false false none none none 0
           :: processInlineContentAsync st.codeBlockStyle resolver cs)
         (some 120)]
     | .list o2 items2 => processListItems st resolver o2 0 items2
     | _ => []) ++ processListItem st resolver ordered index rest

end

/-! ### Callout plugin (src/parsers/callout-plugin.ts) -/

/-- Embedding of the anchored callout-marker regex: open bracket, bang,
a non-empty word run, closing bracket, optional whitespace (newlines
included, as the whitespace class spans lines), then the rest of the
line (the dot does not cross line terminators). Returns the word, the
captured rest, and the length of the whole match. -/
def calloutMatch (s : List Char) : Option (List Char × List Char × Nat) :=
  match s with
  | '[' :: '!' :: rest =>
    let w := rest.takeWhile isWordChar
    if w.isEmpty then none
    else
      match rest.drop w.length with
      | ']' :: rest2 =>
        let ws := rest2.takeWhile isJsWs
        let rest3 := rest2.drop ws.length
        let title := rest3.takeWhile (fun c => !isLineTerm c)
        some (w, title, 2 + w.length + 1 + ws.length + title.length)
      | _ => none
  | _ => none

/-- Embedding of the callout plugin visitor body for one blockquote with
the given children: when the first child is a paragraph whose first
inline child is a text node matching the callout pattern, the blockquote
is replaced by a callout node; otherwise it is left untouched. -/
def transformBlockquote (children : List MdBlock) : MdBlock :=
  match children with
  | .paragraph (MdInline.text v :: restInline) :: restBlocks =>
    (match calloutMatch v.data with
     | none => .blockquote children
     | some (w, title, mlen) =>
       let calloutType := String.mk (w.map Char.toLower)
       let titleOpt := if title.isEmpty then none else some (String.mk title)
       let remainingText := jsTrim (v.data.drop mlen)
       let contentHead : List MdBlock :=
         if !remainingText.isEmpty || !restInline.isEmpty then
           let np := (if remainingText.isEmpty then []
                      else [MdInline.text (String.mk remainingText)]) ++ restInline
           if np.isEmpty then [] else [.paragraph np]
         else []
       let contentRest := restBlocks.filter (fun b =>
         match b with
         | .paragraph _ => true
         | _ => false)
       .callout calloutType titleOpt (contentHead ++ contentRest))
  | _ => .blockquote children

/-! ### Wiki-link plugin (src/utils/wiki-link-remover.ts) -/

/-- The two plugin modes. -/
inductive WikiMode where
  | remove
  | text
deriving Repr, DecidableEq

/-- Body of the wiki-link pattern after the double open bracket: a
non-empty target over characters other than the closing bracket and the
pipe, an optional pipe plus non-empty alias over characters other than
the closing bracket, then a double closing bracket. Returns the target,
the optional alias and the consumed length. -/
def wikiMatchBody (rest : List Char) : Option (List Char × Option (List Char) × Nat) :=
  let t := rest.takeWhile (fun c => c ≠ ']' && c ≠ '|')
  if t.isEmpty then none
  else
    match rest.drop t.length with
    | ']' :: ']' :: _ => some (t, none, t.length + 2)
    | '|' :: rest2 =>
      let a := rest2.takeWhile (fun c => c ≠ ']')
      if a.isEmpty then none
      else
        match rest2.drop a.length with
        | ']' :: ']' :: _ => some (t, some a, t.length + 1 + a.length + 2)
        | _ => none
    | _ => none

/-- Embedding of the wiki-link regex tried at the current position:
double open bracket, then the pattern body. -/
def wikiMatchAt (s : List Char) : Option (List Char × Option (List Char) × Nat) :=
  match s with
  | '[' :: '[' :: rest =>
    (match wikiMatchBody rest with
     | some (t, a, k) => some (t, a, 2 + k)
     | none => none)
  | _ => none

/-- Leftmost wiki-link match in a text value: the unmatched text before
the match, the target, the optional alias, and the rest after the match. -/
def wikiFind : List Char → Option (List Char × List Char × Option (List Char) × List Char)
  | [] => none
  | c :: rest =>
    match wikiMatchAt (c :: rest) with
    | some (t, a, len) => some ([], t, a, (c :: rest).drop len)
    | none =>
      match wikiFind rest with
      | some (pre, t, a, after) => some (c :: pre, t, a, after)
      | none => none

/-- Fuel-driven collection of the replacement node values from the
first match onwards: per match, the non-empty preceding text, then (in
text mode) the alias or target; after the last match the non-empty
remainder. Every match consumes at least four characters, so fuel equal
to the input length is never exhausted and is only a termination
device. -/
def wikiCollectF (mode : WikiMode) : Nat → List Char → List (List Char)
  | 0, s => if s.isEmpty then [] else [s]
  | fuel + 1, s =>
    match wikiFind s with
    | none => if s.isEmpty then [] else [s]
    | some (pre, t, a, after) =>
      (if pre.isEmpty then [] else [pre]) ++
        (match mode with
         | .text => [match a with | some al => al | none => t]
         | .remove => []) ++
        wikiCollectF mode fuel after

/-- Collection of the replacement node values at adequate fuel. -/
def wikiCollect (mode : WikiMode) (s : List Char) : List (List Char) :=
  wikiCollectF mode s.length s

/-- Embedding of the wiki-link plugin action on one text node value: the
list of text values that replace the node in its parent (a singleton
with the original value when there is no match, the empty list when the
whole value is consumed in remove mode). -/
def wikiTransformValue (mode : WikiMode) (v : List Char) : List (List Char) :=
  match wikiFind v with
  | none => [v]
  | some _ => wikiCollect mode v

/-- String wrapper for the wiki-link transformation. -/
def wikiTransformValueS (mode : WikiMode) (s : String) : List String :=
  (wikiTransformValue mode s.data).map String.mk

/-! ### Vault image resolver (src/utils/image-resolver.ts) -/

/-- A vault file: its basename and binary content. -/
structure TFileM where
  name : String
  content : List Nat
deriving Repr, DecidableEq

/-- The resolver cache: filename to found file or explicit miss. -/
def ResolverCache : Type := List (String × Option TFileM)

/-- Map set: replace the entry or add it. -/
def cacheSet (cache : ResolverCache) (k : String) (v : Option TFileM) :
    ResolverCache :=
  match cache with
  | [] => [(k, v)]
  | (k0, v0) :: rest =>
    if k0 = k then (k, v) :: rest else (k0, v0) :: cacheSet rest k v

/-- Basename extraction of VaultImageResolver.resolve: the last
slash-separated segment, or the whole filename when that segment is
empty (the JS pop of the split result, with the falsy fallback to the
whole filename). -/
def extractName (filename : String) : String :=
  let last := String.mk ((splitChar '/' filename.data).getLastD [])
  if last = "" then filename else last

/-- The outcome of one resolve call: the returned buffer or miss, the
cache afterwards, and whether the underlying vault search ran. -/
structure ResolveOut where
  result : Option (List Nat)
  cache : ResolverCache
  didSearch : Bool

/-- Embedding of VaultImageResolver.resolve: a cached entry answers
without searching (an explicit miss answers null); otherwise the vault
file list is searched once, the outcome is cached, found files are read
and misses answer null. -/
def resolveModel (vault : List TFileM) (cache : ResolverCache)
    (filename : String) : ResolveOut :=
  let name := extractName filename
  match cache.lookup name with
  | some cached =>
    (match cached with
     | none => ⟨none, cache, false⟩
     | some f => ⟨some f.content, cache, false⟩)
  | none =>
    let imageFile := vault.find? (fun f => f.name = name)
    let cache1 := cacheSet cache name imageFile
    match imageFile with
    | none => ⟨none, cache1, true⟩
    | some f => ⟨some f.content, cache1, true⟩

/-- Embedding of VaultImageResolver.clearCache. -/
def clearCacheModel (_cache : ResolverCache) : ResolverCache := []

/-- The outcome of the last of a run of one-plus-n sequential resolve
calls for the same filename starting from the given cache. -/
def resolveSeq (vault : List TFileM) (filename : String) :
    Nat → ResolverCache → ResolveOut
  | 0, c => resolveModel vault c filename
  | n + 1, c => resolveSeq vault filename n (resolveModel vault c filename).cache

/-! ## Supporting lemmas -/

theorem takeWhile_eq_nil_of_head {p : Char → Bool} {l : List Char}
    (h : ∀ a, l.head? = some a → p a = false) : l.takeWhile p = [] := by
  cases l with
  | nil => rfl
  | cons c t =>
    rw [List.takeWhile_cons, h c rfl]
    simp

theorem dropWhile_eq_self_of_head {p : Char → Bool} {l : List Char}
    (h : ∀ a, l.head? = some a → p a = false) : l.dropWhile p = l := by
  cases l with
  | nil => rfl
  | cons c t =>
    rw [List.dropWhile_cons, h c rfl]
    simp

theorem head?_dropWhile {p : Char → Bool} :
    ∀ (l : List Char) (a : Char), (l.dropWhile p).head? = some a → p a = false := by
  intro l
  induction l with
  | nil =>
    intro a h
    simp at h
  | cons c t ih =>
    intro a h
    rw [List.dropWhile_cons] at h
    by_cases hc : p c
    · rw [if_pos hc] at h
      exact ih a h
    · rw [if_neg hc] at h
      simp at h
      subst h
      simpa using hc

theorem getLast?_dropWhile_ne_nil {p : Char → Bool} :
    ∀ (l : List Char), l.dropWhile p ≠ [] →
      (l.dropWhile p).getLast? = l.getLast? := by
  intro l
  induction l with
  | nil =>
    intro h
    simp at h
  | cons c t ih =>
    intro h
    rw [List.dropWhile_cons] at h ⊢
    by_cases hc : p c
    · rw [if_pos hc] at h ⊢
      have ht : t ≠ [] := by
        intro e
        subst e
        simp at h
      rw [ih h]
      cases t with
      | nil => exact absurd rfl ht
      | cons d t2 => simp
    · rw [if_neg hc]

theorem noTriple_tail {c : Char} {l : List Char}
    (h : noTriple (c :: l) = true) : noTriple l = true := by
  match l with
  | [] => rfl
  | [d] => rfl
  | d :: e :: t =>
    rw [noTriple] at h
    simp only [Bool.and_eq_true] at h
    exact h.2

theorem noTriple_cons_ne {c : Char} {X : List Char} (hc : ¬c = '\n')
    (hX : noTriple X = true) : noTriple (c :: X) = true := by
  match X with
  | [] => rfl
  | [x] => rfl
  | x :: y :: t =>
    rw [noTriple]
    simp [hc]
    exact hX

theorem noTriple_cons2 {c : Char} {X : List Char} (a : Char) (hc : ¬c = '\n')
    (h : noTriple (c :: X) = true) : noTriple (a :: c :: X) = true := by
  match X with
  | [] => rfl
  | x :: t =>
    rw [noTriple]
    simp [hc]
    exact h

theorem noTriple_two_nl_cons {c : Char} {X : List Char} (hc : ¬c = '\n')
    (h : noTriple (c :: X) = true) : noTriple ('\n' :: '\n' :: c :: X) = true := by
  rw [noTriple]
  simp [hc]
  exact noTriple_cons2 '\n' hc h

theorem noTriple_emit (k : Nat) : noTriple (emitNL k) = true := by
  unfold emitNL
  split
  · decide
  next hk =>
    have h3 : k = 0 ∨ k = 1 ∨ k = 2 := by omega
    rcases h3 with h | h | h <;> subst h <;> decide

theorem noTriple_emit_cons {k : Nat} {c : Char} {X : List Char}
    (hc : ¬c = '\n') (hX : noTriple X = true) :
    noTriple (emitNL k ++ c :: X) = true := by
  have hcons := noTriple_cons_ne hc hX
  unfold emitNL
  split
  · show noTriple ('\n' :: '\n' :: c :: X) = true
    exact noTriple_two_nl_cons hc hcons
  next hk =>
    have h3 : k = 0 ∨ k = 1 ∨ k = 2 := by omega
    rcases h3 with h | h | h <;> subst h
    · simpa using hcons
    · show noTriple ('\n' :: c :: X) = true
      exact noTriple_cons2 '\n' hc hcons
    · show noTriple ('\n' :: '\n' :: c :: X) = true
      exact noTriple_two_nl_cons hc hcons

theorem noTriple_collapseAux :
    ∀ (l : List Char) (k : Nat), noTriple (collapseNLAux k l) = true := by
  intro l
  induction l with
  | nil =>
    intro k
    exact noTriple_emit k
  | cons c rest ih =>
    intro k
    rw [collapseNLAux]
    by_cases hc : c = '\n'
    · rw [if_pos hc]
      exact ih (k + 1)
    · rw [if_neg hc]
      exact noTriple_emit_cons hc (ih 0)

theorem collapseAux_id :
    ∀ (n : Nat) (l : List Char), l.length ≤ n → noTriple l = true →
      collapseNLAux 0 l = l := by
  intro n
  induction n with
  | zero =>
    intro l hl _
    have : l = [] := List.eq_nil_of_length_eq_zero (Nat.le_zero.mp hl)
    subst this
    rfl
  | succ n ih =>
    intro l hl h
    match l with
    | [] => rfl
    | c :: rest =>
      by_cases hc : c = '\n'
      case neg =>
        rw [collapseNLAux, if_neg hc]
        have htl : noTriple rest = true := noTriple_tail h
        have hlen : rest.length ≤ n := by
          simpa using Nat.le_of_succ_le_succ hl
        rw [ih rest hlen htl]
        simp [emitNL]
      case pos =>
        subst hc
        match rest with
        | [] => rfl
        | d :: rest2 =>
          by_cases hd : d = '\n'
          case neg =>
            rw [collapseNLAux, if_pos rfl, collapseNLAux, if_neg hd]
            have h2 : noTriple rest2 = true := noTriple_tail (noTriple_tail h)
            have hlen2 : rest2.length ≤ n := by
              simp at hl
              omega
            rw [ih rest2 hlen2 h2]
            simp [emitNL]
          case pos =>
            subst hd
            match rest2 with
            | [] => rfl
            | e :: rest3 =>
              by_cases he : e = '\n'
              case pos =>
                subst he
                rw [noTriple] at h
                simp at h
              case neg =>
                rw [collapseNLAux, if_pos rfl, collapseNLAux, if_pos rfl,
                  collapseNLAux, if_neg he]
                have h3 : noTriple rest3 = true :=
                  noTriple_tail (noTriple_tail (noTriple_tail h))
                have hlen3 : rest3.length ≤ n := by
                  simp at hl
                  omega
                rw [ih rest3 hlen3 h3]
                simp [emitNL]

theorem jsTrim_idem (l : List Char) : jsTrim (jsTrim l) = jsTrim l := by
  unfold jsTrim
  have hstep1 :
      (((l.dropWhile isJsWs).reverse.dropWhile isJsWs).reverse).dropWhile isJsWs =
        ((l.dropWhile isJsWs).reverse.dropWhile isJsWs).reverse := by
    apply dropWhile_eq_self_of_head
    intro a ha
    rw [List.head?_reverse] at ha
    have hne : (l.dropWhile isJsWs).reverse.dropWhile isJsWs ≠ [] := by
      intro e
      rw [e] at ha
      simp at ha
    rw [getLast?_dropWhile_ne_nil _ hne, List.getLast?_reverse] at ha
    exact head?_dropWhile l a ha
  rw [hstep1, List.reverse_reverse]
  have hstep2 :
      ((l.dropWhile isJsWs).reverse.dropWhile isJsWs).dropWhile isJsWs =
        (l.dropWhile isJsWs).reverse.dropWhile isJsWs := by
    apply dropWhile_eq_self_of_head
    intro a ha
    exact head?_dropWhile _ a ha
  rw [hstep2]

theorem processInlineContentAsync_append (cbs : CodeBlockStyle)
    (r : Option ImgResolver) (a b : List MdInline) :
    processInlineContentAsync cbs r (a ++ b) =
      processInlineContentAsync cbs r a ++ processInlineContentAsync cbs r b := by
  induction a with
  | nil => simp [processInlineContentAsync]
  | cons node rest ih =>
    rw [List.cons_append]
    cases node <;> cases r <;>
      simp [processInlineContentAsync, ih, List.append_assoc]

theorem cacheSet_lookup_self (cache : ResolverCache) (k : String)
    (v : Option TFileM) : (cacheSet cache k v).lookup k = some v := by
  induction cache with
  | nil => simp [cacheSet, List.lookup]
  | cons e rest ih =>
    match e with
    | (k0, v0) =>
      rw [cacheSet]
      by_cases hk : k0 = k
      · rw [if_pos hk]
        simp [List.lookup]
      · rw [if_neg hk]
        rw [List.lookup]
        have : (k == k0) = false := by
          simp
          intro e
          exact hk e.symm
        rw [this]
        simpa using ih

theorem resolveModel_cached_miss (vault : List TFileM)
    (cache : ResolverCache) (filename : String)
    (h : cache.lookup (extractName filename) = some none) :
    resolveModel vault cache filename = ⟨none, cache, false⟩ := by
  unfold resolveModel
  dsimp only []
  rw [h]

/-! ## Claim theorems -/

/-- Claim C1, counterexample. The claim states that the cleanup pass of
the DOCX-to-Markdown converter repairs fragmented tables, so that the
input lines pipe, Name, pipe, the separator, pipe, Alice, pipe
reconstruct to a two-column row, the separator, and a second two-column
row. The converter has no table-repair pass: its output on that exact
input differs from the claimed reconstruction. -/
theorem claim_C1_counterexample :
    cleanupMarkdown "|\nName\n|\n|---|---|\n|\nAlice\n|" ≠
      "| Name |\n|---|---|\n| Alice |\n" := by
  decide

/-- Claim C1, amended. The cleanup pass of the DOCX-to-Markdown
converter performs no table repair: the fragmented table lines pipe,
Name, pipe, separator, pipe, Alice, pipe pass through the whole cleanup
unchanged except for the final appended newline. -/
theorem claim_C1_no_table_repair :
    cleanupMarkdown "|\nName\n|\n|---|---|\n|\nAlice\n|" =
      "|\nName\n|\n|---|---|\n|\nAlice\n|\n" := by
  rfl

/-- Claim C2, counterexample. The claim states that a line whose first
token is a dictionary command name but which carries no corroborating
evidence is not classified as a command, and in particular that the line
go fishing this weekend is not classified. The classifier returns true
on a bare dictionary hit: both the single word go (which has no second
word, flag, operator, path, URL scheme or key-value token) and the line
go fishing this weekend are classified as commands. -/
theorem claim_C2_counterexample :
    looksLikeCliCommand "go" = true ∧
      looksLikeCliCommand "go fishing this weekend" = true := by
  constructor <;> rfl

/-- Claim C2, amended. Every line that passes the early guards (at least
two characters after trimming, no leading backtick, not a space-free URL
or bare path) and whose first whitespace, pipe, semicolon or ampersand
delimited token after prompt stripping is a dictionary command name is
classified as a command, with or without corroborating evidence. -/
theorem claim_C2_dictionary_hit_classifies (l : List Char)
    (h1 : ¬(jsTrim l).length < 2)
    (h2 : codeTickGuard (jsTrim l) = false)
    (h3 : urlGuard (jsTrim l) = false)
    (h4 : barePathGuard (jsTrim l) = false)
    (h5 : CLI_COMMANDS.contains
      (String.mk (classifierFirstWord (promptStripped (jsTrim l)))) = true) :
    looksLikeCliCommandL l = true := by
  unfold looksLikeCliCommandL
  dsimp only []
  rw [if_neg h1, h2, h3, h4, h5]
  simp

/-- Claim C2, witness for the amended theorem at the line go fishing
this weekend. -/
theorem claim_C2_witness :
    CLI_COMMANDS.contains
      (String.mk (classifierFirstWord
        (promptStripped (jsTrim "go fishing this weekend".data)))) = true ∧
    looksLikeCliCommandL "go fishing this weekend".data = true :=
  ⟨by decide,
   claim_C2_dictionary_hit_classifies "go fishing this weekend".data
     (by decide) (by decide) (by decide) (by decide) (by decide)⟩

/-- Claim C3, counterexample. The claim states that a heading whose
flattened text equals Table of Contents produces no output and that the
immediately following list is discarded in full, so the generator output
for such a document fragment would be empty. The generator has no
table-of-contents suppression: the output is not empty. -/
theorem claim_C3_counterexample :
    processNodes DEFAULT_SETTINGS none
      [.heading 1 [.text "Table of Contents"],
       .list false [[.paragraph [.text "Intro"]]]] ≠ [] := by
  decide

/-- Claim C3, amended. The generator applies no table-of-contents
suppression: every heading, whatever its text, emits exactly one heading
paragraph, and the following siblings (lists included) are processed
normally and independently. -/
theorem claim_C3_no_toc_suppression (st : SettingsS)
    (resolver : Option ImgResolver) (d : Nat) (cs : List MdInline)
    (rest : List MdBlock) :
    processNodes st resolver (.heading d cs :: rest) =
      .headingPara (if 1 ≤ d && d ≤ 6 then d else 1)
        (processInlineContent st.codeBlockStyle cs)
        :: processNodes st resolver rest := by
  rw [processNodes, processNode]
  rfl

/-- Claim C4, counterexample. The claim states that formatting is
inherited down the inline tree, so that the strong paragraph containing
an emphasis yields a middle run carrying bold and italics together. The
strong case rebuilds every inner text run with bold only, so the middle
run loses its italics and the claimed three-run output is not produced. -/
theorem claim_C4_counterexample :
    processInlineContent DEFAULT_SETTINGS.codeBlockStyle
      [.strong [.text "bold ", .emphasis [.text "and italic"], .text " text"]] ≠
      [.textRun "bold " true false none none none 0,
       .textRun "and italic" true true none none none 0,
       .textRun " text" true false none none none 0] := by
  decide

/-- Claim C4, amended. The formatting of a run is decided by the
outermost Strong or Emphasis wrapper alone: a Strong wrapper rebuilds
every inner text run with bold set and every other field reset, so the
paragraph with bold wrapping an italic span yields three runs that are
all bold and none italic. -/
theorem claim_C4_outer_wrapper_overwrites :
    processInlineContent DEFAULT_SETTINGS.codeBlockStyle
      [.strong [.text "bold ", .emphasis [.text "and italic"], .text " text"]] =
      [.textRun "bold " true false none none none 0,
       .textRun "and italic" true false none none none 0,
       .textRun " text" true false none none none 0] := by
  rfl

/-- Claim C5, code bug. The claim (and the comments in the source) state
that the wiki-link scan excludes embed markers, leaving a span preceded
by a bang untouched in both modes. The regex carries no such exclusion:
on the text value bang double-bracket image.png double-bracket, remove
mode deletes the span and leaves only the bang, and text mode converts
the span to plain text after the bang. -/
theorem claim_C5_embed_not_excluded :
    wikiTransformValueS .remove "![[image.png]]" = ["!"] ∧
      wikiTransformValueS .text "![[image.png]]" = ["!", "image.png"] := by
  constructor <;> rfl

/-- Claim C6. A blockquote whose first child is a paragraph whose first
inline child is a text node matching the callout pattern is replaced by
a callout node whose type is the matched word lower-cased and whose
title is the captured rest of the line, or null when that capture is
empty; no blockquote remains at that position. -/
theorem claim_C6_callout_extraction (v : String) (restInline : List MdInline)
    (restBlocks : List MdBlock) (w title : List Char) (mlen : Nat)
    (h : calloutMatch v.data = some (w, title, mlen)) :
    ∃ cs, transformBlockquote
        (.paragraph (MdInline.text v :: restInline) :: restBlocks) =
      .callout (String.mk (w.map Char.toLower))
        (if title.isEmpty then none else some (String.mk title)) cs := by
  unfold transformBlockquote
  dsimp only []
  rw [h]
  exact ⟨_, rfl⟩

/-- Claim C6, witness at the blockquote holding the single text node
bracket bang tip bracket Quick tip. -/
theorem claim_C6_witness :
    ∃ cs, transformBlockquote
        [.paragraph [MdInline.text "[!tip] Quick tip"]] =
      .callout "tip" (some "Quick tip") cs := by
  obtain ⟨cs, hcs⟩ :=
    claim_C6_callout_extraction "[!tip] Quick tip" [] []
      "tip".data "Quick tip".data 16 (by rfl)
  refine ⟨cs, ?_⟩
  rw [hcs]
  rfl

/-- Claim C7. For every image node, a cache miss emits no run and
leaves the rest of the runs exactly as they would be without the image,
and a hit carrying no dimensions emits an image run with the fixed
default 400 by 300. -/
theorem claim_C7_image_miss_and_default (cbs : CodeBlockStyle)
    (f : ImgResolver) (pre post : List MdInline) (u1 u2 : String)
    (buf : List Nat) (h1 : f u1 = none) (h2 : f u2 = some ⟨buf, none, none⟩) :
    processInlineContentAsync cbs (some f) (pre ++ .image u1 :: post) =
      processInlineContentAsync cbs (some f) pre ++
        processInlineContentAsync cbs (some f) post ∧
    processInlineContentAsync cbs (some f) (pre ++ .image u2 :: post) =
      processInlineContentAsync cbs (some f) pre ++
        .imageRun buf 400 300 :: processInlineContentAsync cbs (some f) post := by
  constructor
  · rw [show pre ++ MdInline.image u1 :: post = pre ++ ([MdInline.image u1] ++ post) from by simp,
      processInlineContentAsync_append, processInlineContentAsync_append]
    simp [processInlineContentAsync, h1]
  · rw [show pre ++ MdInline.image u2 :: post = pre ++ ([MdInline.image u2] ++ post) from by simp,
      processInlineContentAsync_append, processInlineContentAsync_append]
    simp [processInlineContentAsync, h2, jsOrNat]

/-- Claim C7, witness at a concrete resolver, a missing and a present
image between two text nodes. -/
theorem claim_C7_witness :
    ((fun u => if u = "hit.png" then some (ImgData.mk [7] none none) else none)
        "miss.png" = none ∧
     (fun u => if u = "hit.png" then some (ImgData.mk [7] none none) else none)
        "hit.png" = some (ImgData.mk [7] none none)) ∧
    (processInlineContentAsync DEFAULT_SETTINGS.codeBlockStyle
        (some (fun u => if u = "hit.png" then some (ImgData.mk [7] none none) else none))
        ([.text "a"] ++ .image "miss.png" :: [.text "b"]) =
      processInlineContentAsync DEFAULT_SETTINGS.codeBlockStyle
        (some (fun u => if u = "hit.png" then some (ImgData.mk [7] none none) else none))
        [.text "a"] ++
        processInlineContentAsync DEFAULT_SETTINGS.codeBlockStyle
          (some (fun u => if u = "hit.png" then some (ImgData.mk [7] none none) else none))
          [.text "b"] ∧
     processInlineContentAsync DEFAULT_SETTINGS.codeBlockStyle
        (some (fun u => if u = "hit.png" then some (ImgData.mk [7] none none) else none))
        ([.text "a"] ++ .image "hit.png" :: [.text "b"]) =
      processInlineContentAsync DEFAULT_SETTINGS.codeBlockStyle
        (some (fun u => if u = "hit.png" then some (ImgData.mk [7] none none) else none))
        [.text "a"] ++
        .imageRun [7] 400 300 ::
          processInlineContentAsync DEFAULT_SETTINGS.codeBlockStyle
            (some (fun u => if u = "hit.png" then some (ImgData.mk [7] none none) else none))
            [.text "b"]) :=
  ⟨⟨by decide, by decide⟩,
   claim_C7_image_miss_and_default DEFAULT_SETTINGS.codeBlockStyle
     (fun u => if u = "hit.png" then some (ImgData.mk [7] none none) else none)
     [.text "a"] [.text "b"] "miss.png" "hit.png" [7]
     (by decide) (by decide)⟩

/-- Claim C8. When a filename is not yet cached and the vault has no
file with that basename, the first resolve performs the vault search and
answers a miss; the miss is cached explicitly, every later sequential
resolve of the same filename answers the miss without searching and
without changing the cache, and after an explicit cache clear the next
resolve searches again. -/
theorem claim_C8_negative_caching (vault : List TFileM)
    (cache : ResolverCache) (filename : String)
    (h1 : cache.lookup (extractName filename) = none)
    (h2 : vault.find? (fun f => f.name = extractName filename) = none) :
    (resolveModel vault cache filename).didSearch = true ∧
    (resolveModel vault cache filename).result = none ∧
    (∀ n, resolveSeq vault filename n (resolveModel vault cache filename).cache =
      ⟨none, (resolveModel vault cache filename).cache, false⟩) ∧
    (resolveModel vault
      (clearCacheModel (resolveModel vault cache filename).cache)
      filename).didSearch = true := by
  have hmain : resolveModel vault cache filename =
      ⟨none, cacheSet cache (extractName filename) none, true⟩ := by
    unfold resolveModel
    dsimp only []
    rw [h1, h2]
  have hcached : (cacheSet cache (extractName filename) none).lookup
      (extractName filename) = some none :=
    cacheSet_lookup_self cache (extractName filename) none
  have hstep : resolveModel vault (cacheSet cache (extractName filename) none)
      filename = ⟨none, cacheSet cache (extractName filename) none, false⟩ :=
    resolveModel_cached_miss vault _ filename hcached
  refine ⟨by rw [hmain], by rw [hmain], ?_, ?_⟩
  · intro n
    rw [hmain]
    induction n with
    | zero =>
      rw [resolveSeq]
      exact hstep
    | succ n ihn =>
      rw [resolveSeq, hstep]
      exact ihn
  · rw [hmain]
    unfold clearCacheModel resolveModel
    dsimp only []
    rw [h2]
    rfl

/-- Claim C8, witness at a vault holding one unrelated file, the empty
cache, and the filename imgs slash missing.png. -/
theorem claim_C8_witness :
    ((([] : ResolverCache).lookup (extractName "imgs/missing.png") = none) ∧
      ([TFileM.mk "other.png" [1, 2]].find?
        (fun f => f.name = extractName "imgs/missing.png") = none)) ∧
    ((resolveModel [TFileM.mk "other.png" [1, 2]] [] "imgs/missing.png").didSearch = true ∧
      (resolveModel [TFileM.mk "other.png" [1, 2]] [] "imgs/missing.png").result = none ∧
      (∀ n, resolveSeq [TFileM.mk "other.png" [1, 2]] "imgs/missing.png" n
          (resolveModel [TFileM.mk "other.png" [1, 2]] [] "imgs/missing.png").cache =
        ⟨none, (resolveModel [TFileM.mk "other.png" [1, 2]] [] "imgs/missing.png").cache,
          false⟩) ∧
      (resolveModel [TFileM.mk "other.png" [1, 2]]
        (clearCacheModel
          (resolveModel [TFileM.mk "other.png" [1, 2]] [] "imgs/missing.png").cache)
        "imgs/missing.png").didSearch = true) :=
  ⟨⟨by decide, by decide⟩,
   claim_C8_negative_caching [TFileM.mk "other.png" [1, 2]] [] "imgs/missing.png"
     (by decide) (by decide)⟩

/-- Claim C9. The blank-line collapse pass, which replaces every run of
three or more consecutive newlines with exactly two, is idempotent. -/
theorem claim_C9_collapse_idempotent (l : List Char) :
    collapseNL (collapseNL l) = collapseNL l :=
  collapseAux_id (collapseNLAux 0 l).length (collapseNLAux 0 l) le_rfl
    (noTriple_collapseAux l 0)

/-- Claim C10. For every input string, the markdown cleanup returns the
trimmed body followed by exactly one newline: the result splits as a
body with no leading or trailing whitespace plus a single final newline
character. -/
theorem claim_C10_single_trailing_newline (s : String) :
    ∃ b : List Char, (cleanupMarkdown s).data = b ++ ['\n'] ∧ jsTrim b = b :=
  ⟨jsTrim (formatCliCommandsL (trimTrailingWsL (collapseNL s.data))),
   rfl, jsTrim_idem _⟩

end KB
